import Mathlib

/-!
Verification of the dictionary-container parser and vocabulary extractor
(source files `reverse_data.py` and `extract.py`).

The Python code is shallowly embedded: byte buffers become `List Nat`,
Python `str` values become `String` or `List Char`, Python dicts become
association lists queried through `lookupS` (only `lookup`-observations are
used, which matches dict semantics), raised exceptions become `Option`
or `Except` results, and the external collaborators (zlib, lxml, nltk)
become function parameters.
-/

namespace ParseDict

/-- First-match association-list lookup; models a Python dict read `m[k]`
(`none` models a `KeyError`). -/
def lookupS {α : Type} : List (String × α) → String → Option α
  | [], _ => none
  | (k, v) :: rest, w => if k = w then some v else lookupS rest w

/-- Association-list store `m[k] = v`: replaces the binding of `k` if present,
otherwise appends a new binding.  Models a Python dict write. -/
def dinsert {α : Type} : List (String × α) → String → α → List (String × α)
  | [], k, v => [(k, v)]
  | (k', v') :: rest, k, v =>
    if k' = k then (k, v) :: rest else (k', v') :: dinsert rest k v

theorem lookupS_dinsert {α : Type} (l : List (String × α)) (k w : String) (v : α) :
    lookupS (dinsert l k v) w = if w = k then some v else lookupS l w := by
  induction l with
  | nil =>
    by_cases h : k = w
    · subst h; simp [dinsert, lookupS]
    · have h2 : ¬ w = k := fun h' => h h'.symm
      simp [dinsert, lookupS, h, h2]
  | cons p rest ih =>
    obtain ⟨k', v'⟩ := p
    by_cases hk : k' = k
    · subst hk
      by_cases hw : k' = w
      · subst hw; simp [dinsert, lookupS]
      · have h2 : ¬ w = k' := fun h' => hw h'.symm
        simp [dinsert, lookupS, hw, h2]
    · by_cases hw : k' = w
      · subst hw
        have h2 : ¬ k' = k := hk
        simp [dinsert, lookupS, h2]
      · simp [dinsert, lookupS, hk, hw, ih]

theorem lookupS_eq_none_iff {α : Type} (l : List (String × α)) (w : String) :
    lookupS l w = none ↔ w ∉ l.map Prod.fst := by
  induction l with
  | nil => simp [lookupS]
  | cons p rest ih =>
    obtain ⟨k, v⟩ := p
    by_cases h : k = w
    · subst h; simp [lookupS]
    · have h2 : ¬ w = k := fun h' => h h'.symm
      simp [lookupS, h, h2, ih]

/-- One dictionary entry (class `Entry` of `reverse_data.py`).
`relatedWords` models the value of `get_words_and_derivaties()` and
`info` the value of `get_info()`; both are deterministic functions of the
stored markup, so they are carried as fields. -/
structure Entry where
  key : String
  content : String
  relatedWords : List String
  info : List String
deriving DecidableEq

/-- Class `WordDictionary` of `reverse_data.py`: the primary mapping `d`
and the link table `links`. -/
structure WordDictionary where
  d : List (String × Entry)
  links : List (String × String)
deriving DecidableEq

/-- Model of `WordDictionary.__getitem__`: primary mapping first, then one link hop
(`self.d[self.links[w]]`); `none` models the raised `KeyError`. -/
def WordDictionary.getitem (wd : WordDictionary) (w : String) : Option Entry :=
  match lookupS wd.d w with
  | some e => some e
  | none =>
    match lookupS wd.links w with
    | some w2 => lookupS wd.d w2
    | none => none

/-- Model of `WordDictionary.__contains__`: `w in self.d or w in self.links`. -/
def WordDictionary.containsW (wd : WordDictionary) (w : String) : Bool :=
  (lookupS wd.d w).isSome || (lookupS wd.links w).isSome

/-- Claim C4: `get(w)` returns the entry stored under `w` when `w` is a
primary key; otherwise the entry stored under `links[w]` when `w` is a link;
otherwise it signals a not-found error; and `contains(w)` holds exactly when
`w` is in the primary mapping or in the link mapping. -/
theorem c4_lookup_contract (wd : WordDictionary) (w : String) :
    (∀ e, lookupS wd.d w = some e → wd.getitem w = some e)
    ∧ (∀ k, lookupS wd.d w = none → lookupS wd.links w = some k →
        wd.getitem w = lookupS wd.d k)
    ∧ (lookupS wd.d w = none → lookupS wd.links w = none →
        wd.getitem w = none)
    ∧ (wd.containsW w = true ↔
        (lookupS wd.d w).isSome = true ∨ (lookupS wd.links w).isSome = true) := by
  refine ⟨?_, ?_, ?_, ?_⟩
  · intro e he; simp [WordDictionary.getitem, he]
  · intro k hd hl; simp [WordDictionary.getitem, hd, hl]
  · intro hd hl; simp [WordDictionary.getitem, hd, hl]
  · simp [WordDictionary.containsW]

/-- Concrete instantiation of `c4_lookup_contract`: a two-word dictionary
where `"house"` is a primary key and `"houses"` links to it. -/
theorem c4_lookup_contract_witness :
    (let e : Entry := ⟨"house", "c", [], []⟩
     let wd : WordDictionary := ⟨[("house", e)], [("houses", "house")]⟩
     wd.getitem "houses" = lookupS wd.d "house"
       ∧ wd.getitem "absent" = none
       ∧ (wd.containsW "houses" = true)) := by
  refine ⟨?_, ?_, ?_⟩
  · exact (c4_lookup_contract _ "houses").2.1 "house" (by decide) (by decide)
  · exact (c4_lookup_contract _ "absent").2.2.1 (by decide) (by decide)
  · exact ((c4_lookup_contract _ "houses").2.2.2).mpr (by right; decide)

/-- Inner loop of `_get_links`: for one entry `(key, ·)` walk its related
words `ws`; a word already present in the full entry mapping, or already
claimed in `links`, is skipped, otherwise `links[w] = key` is recorded. -/
def addWordLinks (entries : List (String × Entry)) (key : String) :
    List String → List (String × String) → List (String × String)
  | [], links => links
  | w :: ws, links =>
    if (lookupS entries w).isSome then addWordLinks entries key ws links
    else if (lookupS links w).isSome then addWordLinks entries key ws links
    else addWordLinks entries key ws ((w, key) :: links)

/-- Outer loop of `_get_links`: fold over `entries.items()` threading the
link table. -/
def getLinksGo (entries : List (String × Entry)) :
    List (String × Entry) → List (String × String) → List (String × String)
  | [], links => links
  | (key, e) :: rest, links =>
    getLinksGo entries rest (addWordLinks entries key e.relatedWords links)

/-- Model of `_get_links` of `reverse_data.py` (the pickle cache only memoizes the
result and is dropped). -/
def getLinks (entries : List (String × Entry)) : List (String × String) :=
  getLinksGo entries entries []

/-- The key of the first entry of the list whose related words contain `w`. -/
def firstClaim (w : String) : List (String × Entry) → Option String
  | [] => none
  | (k, e) :: rest => if w ∈ e.relatedWords then some k else firstClaim w rest

theorem lookupS_addWordLinks (entries : List (String × Entry)) (key : String)
    (ws : List String) (links : List (String × String)) (w : String) :
    lookupS (addWordLinks entries key ws links) w =
      if lookupS entries w = none ∧ lookupS links w = none ∧ w ∈ ws then some key
      else lookupS links w := by
  induction ws generalizing links with
  | nil => simp [addWordLinks]
  | cons w0 ws ih =>
    by_cases he : (lookupS entries w0).isSome
    · rw [addWordLinks, if_pos he, ih]
      by_cases hw : w = w0
      · subst hw
        have h1 : ¬ lookupS entries w = none := by
          intro h; rw [h] at he; simp at he
        simp [h1]
      · simp [hw]
    · by_cases hl : (lookupS links w0).isSome
      · rw [addWordLinks, if_neg he, if_pos hl, ih]
        by_cases hw : w = w0
        · subst hw
          have h1 : ¬ lookupS links w = none := by
            intro h; rw [h] at hl; simp at hl
          simp [h1]
        · simp [hw]
      · rw [addWordLinks, if_neg he, if_neg hl, ih]
        by_cases hw : w = w0
        · subst hw
          have h1 : lookupS entries w = none := by
            cases h : lookupS entries w with
            | none => rfl
            | some e => rw [h] at he; simp at he
          have h2 : lookupS links w = none := by
            cases h : lookupS links w with
            | none => rfl
            | some k => rw [h] at hl; simp at hl
          simp [lookupS, h1, h2]
        · have h4 : ¬ w0 = w := fun h => hw h.symm
          have h3 : lookupS ((w0, key) :: links) w = lookupS links w := by
            simp [lookupS, h4]
          rw [h3]
          simp [hw, h4, lookupS]

theorem lookupS_getLinksGo (entries : List (String × Entry))
    (rest : List (String × Entry)) (links : List (String × String)) (w : String) :
    lookupS (getLinksGo entries rest links) w =
      if lookupS entries w = none ∧ lookupS links w = none then firstClaim w rest
      else lookupS links w := by
  induction rest generalizing links with
  | nil =>
    simp only [getLinksGo, firstClaim]
    by_cases h : lookupS entries w = none ∧ lookupS links w = none
    · rw [if_pos h, h.2]
    · rw [if_neg h]
  | cons p rest ih =>
    obtain ⟨key, e⟩ := p
    rw [getLinksGo, ih, lookupS_addWordLinks]
    by_cases he : lookupS entries w = none
    · by_cases hl : lookupS links w = none
      · by_cases hm : w ∈ e.relatedWords
        · simp [he, hl, hm, firstClaim]
        · simp [he, hl, hm, firstClaim]
      · simp [he, hl]
    · simp [he]

theorem firstClaim_mem_keys (w : String) (l : List (String × Entry)) (k : String)
    (h : firstClaim w l = some k) : k ∈ l.map Prod.fst := by
  induction l with
  | nil => simp [firstClaim] at h
  | cons p rest ih =>
    obtain ⟨k', e⟩ := p
    by_cases hm : w ∈ e.relatedWords
    · rw [firstClaim, if_pos hm] at h
      injection h with h
      subst h; simp
    · rw [firstClaim, if_neg hm] at h
      simp [ih h]

theorem firstClaim_of_split (w : String) (pre post : List (String × Entry))
    (key : String) (e : Entry) (hmem : w ∈ e.relatedWords)
    (hpre : ∀ k' e', (k', e') ∈ pre → w ∉ e'.relatedWords) :
    firstClaim w (pre ++ (key, e) :: post) = some key := by
  induction pre with
  | nil => simp [firstClaim, hmem]
  | cons p pre ih =>
    obtain ⟨k', e'⟩ := p
    have h1 : w ∉ e'.relatedWords := hpre k' e' (by simp)
    rw [List.cons_append, firstClaim, if_neg h1]
    exact ih (fun k2 e2 hm => hpre k2 e2 (by simp [hm]))

/-- Claim C5: in the link table built by `_get_links`, (a) every link value
is a primary key of the entry mapping, (b) no link key is simultaneously a
primary key, and (c) when several entries claim the same non-key word, the
link maps it to the key of the first claiming entry in entry-list order. -/
theorem c5_link_table_invariants (entries : List (String × Entry)) :
    (∀ w k, lookupS (getLinks entries) w = some k → k ∈ entries.map Prod.fst)
    ∧ (∀ w k, lookupS (getLinks entries) w = some k → w ∉ entries.map Prod.fst)
    ∧ (∀ pre post key e w, entries = pre ++ (key, e) :: post →
        w ∈ e.relatedWords → lookupS entries w = none →
        (∀ k' e', (k', e') ∈ pre → w ∉ e'.relatedWords) →
        lookupS (getLinks entries) w = some key) := by
  have hmain : ∀ w, lookupS (getLinks entries) w =
      if lookupS entries w = none then firstClaim w entries else none := by
    intro w
    rw [getLinks, lookupS_getLinksGo]
    by_cases he : lookupS entries w = none
    · simp [he, lookupS]
    · simp [he, lookupS]
  refine ⟨?_, ?_, ?_⟩
  · intro w k h
    rw [hmain] at h
    by_cases he : lookupS entries w = none
    · rw [if_pos he] at h
      exact firstClaim_mem_keys w entries k h
    · rw [if_neg he] at h; exact absurd h (by simp)
  · intro w k h
    rw [hmain] at h
    by_cases he : lookupS entries w = none
    · exact (lookupS_eq_none_iff entries w).mp he
    · rw [if_neg he] at h; exact absurd h (by simp)
  · intro pre post key e w hsplit hmem hnone hpre
    rw [hmain, if_pos hnone, hsplit]
    exact firstClaim_of_split w pre post key e hmem hpre

/-- Concrete instantiation of `c5_link_table_invariants`: two entries both
claim the word `"w"`; the first one in entry order wins. -/
theorem c5_link_table_invariants_witness :
    (let e1 : Entry := ⟨"k1", "c1", ["w"], []⟩
     let e2 : Entry := ⟨"k2", "c2", ["w"], []⟩
     lookupS (getLinks [("k1", e1), ("k2", e2)]) "w" = some "k1") := by
  exact (c5_link_table_invariants _).2.2 [] [(("k2" : String), ⟨"k2", "c2", ["w"], []⟩)]
    "k1" ⟨"k1", "c1", ["w"], []⟩ "w" rfl (by decide) (by decide)
    (fun k' e' hm => absurd hm (by simp))

/-- Loop body of `WordDictionary.filtered`: for each requested word `w`,
`filtered_dict[w] = self[w]` (which may raise, modelled by `none`), and if
`w` is in the link table, `filtered_links[w] = self.links[w]`. -/
def filteredGo (wd : WordDictionary) :
    List String → WordDictionary → Option WordDictionary
  | [], acc => some acc
  | w :: rest, acc =>
    match wd.getitem w with
    | none => none
    | some e =>
      let accd := dinsert acc.d w e
      let accl :=
        match lookupS wd.links w with
        | some t => dinsert acc.links w t
        | none => acc.links
      filteredGo wd rest ⟨accd, accl⟩

/-- Model of `WordDictionary.filtered` of `reverse_data.py`. -/
def filteredWD (wd : WordDictionary) (words : List String) : Option WordDictionary :=
  filteredGo wd words ⟨[], []⟩

theorem filteredGo_ok (wd : WordDictionary) (words : List String)
    (acc : WordDictionary) (h : ∀ w ∈ words, (wd.getitem w).isSome) :
    ∃ fd, filteredGo wd words acc = some fd
      ∧ (∀ w, lookupS fd.d w =
          if w ∈ words then wd.getitem w else lookupS acc.d w)
      ∧ (∀ w, lookupS fd.links w =
          if w ∈ words ∧ (lookupS wd.links w).isSome then lookupS wd.links w
          else lookupS acc.links w) := by
  induction words generalizing acc with
  | nil => exact ⟨acc, rfl, by simp, by simp⟩
  | cons w0 rest ih =>
    have h0 : (wd.getitem w0).isSome := h w0 (by simp)
    obtain ⟨e, he⟩ : ∃ e, wd.getitem w0 = some e := by
      cases hg : wd.getitem w0 with
      | none => rw [hg] at h0; simp at h0
      | some e => exact ⟨e, rfl⟩
    set accl :=
      (match lookupS wd.links w0 with
        | some t => dinsert acc.links w0 t
        | none => acc.links) with haccl
    obtain ⟨fd, heq, hd, hl⟩ :=
      ih ⟨dinsert acc.d w0 e, accl⟩ (fun w hw => h w (by simp [hw]))
    refine ⟨fd, ?_, ?_, ?_⟩
    · rw [filteredGo, he]; exact heq
    · intro w
      rw [hd w]
      by_cases hr : w ∈ rest
      · simp [hr]
      · by_cases hw0 : w = w0
        · subst hw0
          simp [hr, lookupS_dinsert, he]
        · simp [hr, hw0, lookupS_dinsert]
    · intro w
      rw [hl w]
      by_cases hr : w ∈ rest
      · by_cases hs : (lookupS wd.links w).isSome
        · simp [hr, hs]
        · have hnone : lookupS wd.links w = none := by
            cases hq : lookupS wd.links w with
            | none => rfl
            | some t => rw [hq] at hs; simp at hs
          by_cases hw0 : w = w0
          · subst hw0
            simp [hr, hs, haccl, hnone]
          · simp only [hr, hs, true_and, and_false, if_false, haccl]
            cases hq : lookupS wd.links w0 with
            | none => simp
            | some t => simp [lookupS_dinsert, hw0]
      · by_cases hw0 : w = w0
        · subst hw0
          cases hq : lookupS wd.links w with
          | none => simp [hr, hq, haccl]
          | some t => simp [hr, hq, haccl, lookupS_dinsert]
        · have hmem : ¬ w ∈ w0 :: rest := by simp [hw0, hr]
          simp only [hr, false_and, if_false, hmem, haccl]
          cases hq : lookupS wd.links w0 with
          | none => simp
          | some t => simp [lookupS_dinsert, hw0]

theorem filteredGo_err (wd : WordDictionary) (words : List String)
    (acc : WordDictionary) (w : String) (hmem : w ∈ words)
    (hw : wd.getitem w = none) : filteredGo wd words acc = none := by
  induction words generalizing acc with
  | nil => simp at hmem
  | cons w0 rest ih =>
    cases hg : wd.getitem w0 with
    | none => rw [filteredGo, hg]
    | some e =>
      rw [filteredGo, hg]
      have hne : w ≠ w0 := by
        intro hcontra; subst hcontra; rw [hg] at hw; exact Option.noConfusion hw
      have hr : w ∈ rest := by
        rcases List.mem_cons.mp hmem with h1 | h1
        · exact absurd h1 hne
        · exact h1
      exact ih _ hr

theorem filteredWD_ok (wd : WordDictionary) (words : List String)
    (h : ∀ w ∈ words, (wd.getitem w).isSome) :
    ∃ fd, filteredWD wd words = some fd
      ∧ (∀ w ∈ words, lookupS fd.d w = wd.getitem w)
      ∧ (∀ w, w ∉ words → lookupS fd.d w = none)
      ∧ (∀ w, lookupS fd.links w =
          if w ∈ words then lookupS wd.links w else none) := by
  obtain ⟨fd, heq, hd, hl⟩ := filteredGo_ok wd words ⟨[], []⟩ h
  refine ⟨fd, heq, ?_, ?_, ?_⟩
  · intro w hw; rw [hd w, if_pos hw]
  · intro w hw; rw [hd w, if_neg hw]; rfl
  · intro w
    rw [hl w]
    by_cases hw : w ∈ words
    · by_cases hs : (lookupS wd.links w).isSome
      · simp [hw, hs]
      · have hnone : lookupS wd.links w = none := by
          cases hq : lookupS wd.links w with
          | none => rfl
          | some t => rw [hq] at hs; simp at hs
        simp [hw, hs, hnone, lookupS]
    · simp [hw, lookupS]

theorem filteredWD_err (wd : WordDictionary) (words : List String)
    (w : String) (hmem : w ∈ words) (hd : lookupS wd.d w = none)
    (hl : lookupS wd.links w = none) : filteredWD wd words = none := by
  have hget : wd.getitem w = none := by
    rw [WordDictionary.getitem, hd, hl]
  exact filteredGo_err wd words ⟨[], []⟩ w hmem hget

/-- Claim C6: when every requested word resolves, `filtered(W)` binds each
requested word to the entry `get(w)` resolves to (keyed by the requested
word), and its link table is exactly the original link table restricted to
`W`; when some requested word is neither a primary key nor a link,
`filtered` signals a not-found error and produces no partial result (the
original index, being a value, is unchanged). -/
theorem c6_filtered_error_contract (wd : WordDictionary) (words : List String) :
    ((∀ w ∈ words, (wd.getitem w).isSome) →
      ∃ fd, filteredWD wd words = some fd
        ∧ (∀ w ∈ words, lookupS fd.d w = wd.getitem w)
        ∧ (∀ w, w ∉ words → lookupS fd.d w = none)
        ∧ (∀ w, lookupS fd.links w =
            if w ∈ words then lookupS wd.links w else none))
    ∧ (∀ w ∈ words, lookupS wd.d w = none → lookupS wd.links w = none →
        filteredWD wd words = none) :=
  ⟨fun h => filteredWD_ok wd words h,
   fun w hmem hd hl => filteredWD_err wd words w hmem hd hl⟩

/-- Dictionary used to instantiate the `filtered` theorems. -/
def c6wd : WordDictionary :=
  ⟨[("k", ⟨"k", "ck", [], []⟩)], []⟩

/-- Concrete instantiation of `c6_filtered_error_contract`: filtering the
one-entry dictionary `c6wd` by an existing word succeeds, and by an unknown
word fails with no partial output. -/
theorem c6_filtered_error_contract_witness :
    (∃ fd, filteredWD c6wd ["k"] = some fd) ∧ filteredWD c6wd ["bad"] = none := by
  constructor
  · obtain ⟨fd, h1, _⟩ := (c6_filtered_error_contract c6wd ["k"]).1 (by decide)
    exact ⟨fd, h1⟩
  · exact (c6_filtered_error_contract c6wd ["bad"]).2 "bad" (by decide)
      (by decide) (by decide)

/-- Dictionary refuting claim C7: `"w"` is reachable only through the link
`"w" → "k"`, and `"b"` is both a primary key and a link-table key. -/
def c7wd : WordDictionary :=
  ⟨[("k", ⟨"k", "ck", [], []⟩), ("b", ⟨"b", "cb", [], []⟩)],
   [("w", "k"), ("b", "k")]⟩

/-- The index the code actually returns for `filtered({"w", "b"})` on
`c7wd`. -/
def c7fd : WordDictionary :=
  ⟨[("w", ⟨"k", "ck", [], []⟩), ("b", ⟨"b", "cb", [], []⟩)],
   [("w", "k"), ("b", "k")]⟩

/-- Counterexample to claim C7 as stated: for `W = {"w", "b"}` over `c7wd`
(where `"w"` resolves only via the link `"w" → "k"`), the returned primary
keys are the requested words, not the resolved canonical forms: `"k"` is
absent, `"w"` is present; and `"b"`, which resolves via the primary mapping
rather than via a link, still appears in the returned link table. -/
theorem c7_filtered_keys_counterexample :
    filteredWD c7wd ["w", "b"] = some c7fd
    ∧ lookupS c7fd.d "k" = none
    ∧ (lookupS c7fd.d "w").isSome = true
    ∧ lookupS c7fd.links "b" = some "k" := by decide

/-- Claim C7 amended: for any list `W` of resolvable words, the primary-key
set of `filtered(W)` is exactly `W` itself (each requested word is keyed as
requested, even when reachable only via a link), and its link table is
exactly the restriction of the original link table to members of `W`. -/
theorem c7_filtered_keys_amended (wd : WordDictionary) (words : List String)
    (h : ∀ w ∈ words, (wd.getitem w).isSome) :
    ∃ fd, filteredWD wd words = some fd
      ∧ (∀ w, (lookupS fd.d w).isSome = true ↔ w ∈ words)
      ∧ (∀ w, lookupS fd.links w =
          if w ∈ words then lookupS wd.links w else none) := by
  obtain ⟨fd, heq, hd, hdnone, hl⟩ := filteredWD_ok wd words h
  refine ⟨fd, heq, ?_, hl⟩
  intro w
  constructor
  · intro hs
    by_contra hw
    rw [hdnone w hw] at hs
    simp at hs
  · intro hw
    rw [hd w hw]
    exact h w hw

/-- Concrete instantiation of `c7_filtered_keys_amended` on `c7wd`. -/
theorem c7_filtered_keys_amended_witness :
    ∃ fd, filteredWD c7wd ["w", "b"] = some fd
      ∧ ((lookupS fd.d "w").isSome = true ↔ "w" ∈ ["w", "b"]) := by
  obtain ⟨fd, h1, h2, _⟩ := c7_filtered_keys_amended c7wd ["w", "b"] (by decide)
  exact ⟨fd, h1, h2 "w"⟩

/-!
Segment discovery (`_parse` of `reverse_data.py`).  The streaming
decompressor (`zlib.decompressobj`) is a parameter `D`: on success it
returns the decompressed payload and the unused trailing bytes
(`d.unused_data`), on `zlib.error` it returns `none`.  The splitter
(`_split`) is a parameter `S` returning the new entries and the stop flag.
The Python loop is unbounded (`itertools.count()`); here it carries fuel,
initialised to one more than the number of remaining bytes, which is enough
iterations whenever the decompressor consumes at least one byte per
success (true of zlib streams): each iteration either consumes one byte on
failure or moves to a strictly shorter suffix on success.  The `Option`
result models the Python return value: `some entries` for the
`return entries` path, `none` for the implicit `return None` reached when
the loop exits through the empty-buffer `break`. -/
def parseGo (D : List Nat → Option (List Nat × List Nat))
    (S : List Nat → List (String × String) × Bool) :
    Nat → List Nat → List (String × String) → Option (List (String × String))
  | 0, _, _ => none
  | fuel + 1, contentBytes, entries =>
    if contentBytes.isEmpty then none
    else
      match D contentBytes with
      | some (res, unusedData) =>
        let (newEntries, stop) := S res
        let entries2 := entries ++ newEntries
        if stop then some entries2 else parseGo D S fuel unusedData entries2
      | none => parseGo D S fuel (contentBytes.drop 1) entries

/-- Model of `_parse`: skip the fixed 100-byte container header, then run the
resynchronising decompression loop. -/
def parseBytes (D : List Nat → Option (List Nat × List Nat))
    (S : List Nat → List (String × String) × Bool)
    (contentBytes : List Nat) : Option (List (String × String)) :=
  let afterHeader := contentBytes.drop 100
  parseGo D S (afterHeader.length + 1) afterHeader []

/-- Decompressor for the C1 demonstration: succeeds exactly on the suffix
`[1, 2, 3]` (consuming two bytes, leaving `[3]` unused), fails everywhere
else — the shape of a single valid zlib stream embedded in padding. -/
def c1D : List Nat → Option (List Nat × List Nat) :=
  fun bs => if bs = [1, 2, 3] then some ([7], [3]) else none

/-- Splitter for the C1 demonstration: one entry, no stop sentinel. -/
def c1S : List Nat → List (String × String) × Bool :=
  fun _ => ([("alpha", "text")], false)

/-- Container for the C1 demonstration: 100 header bytes, then `[1, 2, 3]`. -/
def c1Buf : List Nat := List.replicate 100 0 ++ [1, 2, 3]

/-- Claim C1 (demonstration of the code bug): on a container whose buffer
empties before any stop sentinel, `_parse` falls out of its loop through the
backup `break` and implicitly returns `None` (`none`), not the entries
collected so far — here the already-parsed entry `("alpha", "text")` is
lost, and the caller `parse` then crashes iterating `None`. -/
theorem c1_empty_buffer_returns_none :
    parseBytes c1D c1S c1Buf = none ∧ c1S [7] = ([("alpha", "text")], false) := by
  constructor
  · rfl
  · rfl

/-- Claim C2: the segment-discovery loop starts right past the 100-byte
header; it advances by exactly one byte on each decompression failure and
continues from the unused trailing bytes on success; consequently if
decompression fails at offsets 0 through 5 past the header and succeeds at
offset 6 (with the splitter reporting the terminal segment), the parse
returns exactly the entries of the segment decompressed at offset 6. -/
theorem c2_resync_one_byte (D : List Nat → Option (List Nat × List Nat))
    (S : List Nat → List (String × String) × Bool) :
    (∀ contentBytes, parseBytes D S contentBytes =
        parseGo D S ((contentBytes.drop 100).length + 1) (contentBytes.drop 100) [])
    ∧ (∀ fuel content acc, content ≠ [] → D content = none →
        parseGo D S (fuel + 1) content acc = parseGo D S fuel (content.drop 1) acc)
    ∧ (∀ fuel content acc payload unused es, content ≠ [] →
        D content = some (payload, unused) → S payload = (es, false) →
        parseGo D S (fuel + 1) content acc = parseGo D S fuel unused (acc ++ es))
    ∧ (∀ header tail payload unused es, header.length = 100 → 6 < tail.length →
        (∀ k, k < 6 → D (tail.drop k) = none) →
        D (tail.drop 6) = some (payload, unused) → S payload = (es, true) →
        parseBytes D S (header ++ tail) = some es) := by
  have hstep_fail : ∀ fuel content acc, content ≠ [] → D content = none →
      parseGo D S (fuel + 1) content acc = parseGo D S fuel (content.drop 1) acc := by
    intro fuel content acc hne hD
    rw [parseGo, if_neg (by simpa using hne), hD]
  have hstep_ok : ∀ fuel content acc payload unused es, content ≠ [] →
      D content = some (payload, unused) → S payload = (es, false) →
      parseGo D S (fuel + 1) content acc = parseGo D S fuel unused (acc ++ es) := by
    intro fuel content acc payload unused es hne hD hS
    rw [parseGo, if_neg (by simpa using hne), hD]
    simp [hS]
  have hskip : ∀ n tail fuel acc, (∀ k, k < n → D (tail.drop k) = none) →
      n < tail.length →
      parseGo D S (n + fuel) tail acc = parseGo D S fuel (tail.drop n) acc := by
    intro n
    induction n with
    | zero => intro tail fuel acc _ _; simp
    | succ m ih =>
      intro tail fuel acc hfail hlen
      have hne : tail ≠ [] := by
        intro h; rw [h] at hlen; simp at hlen
      have h0 : D tail = none := by simpa using hfail 0 (Nat.succ_pos m)
      have hrw : m + 1 + fuel = (m + fuel) + 1 := by omega
      rw [hrw, hstep_fail (m + fuel) tail acc hne h0]
      have hdd : ∀ j, (tail.drop 1).drop j = tail.drop (j + 1) := by
        intro j
        rw [List.drop_drop]
        congr 1
        omega
      have hfail2 : ∀ k, k < m → D ((tail.drop 1).drop k) = none := by
        intro k hk
        rw [hdd k]
        exact hfail (k + 1) (by omega)
      have hlen2 : m < (tail.drop 1).length := by
        have h1 : (tail.drop 1).length = tail.length - 1 := by simp
        omega
      rw [ih (tail.drop 1) fuel acc hfail2 hlen2, hdd m]
  refine ⟨fun _ => rfl, hstep_fail, hstep_ok, ?_⟩
  intro header tail payload unused es hh hlen hfail hD hS
  have hdrop : (header ++ tail).drop 100 = tail := by
    rw [← hh, List.drop_left]
  rw [parseBytes]
  simp only [hdrop]
  have hfuel : tail.length + 1 = 6 + (tail.length - 5) := by omega
  rw [hfuel, hskip 6 tail (tail.length - 5) [] hfail hlen]
  have hm : tail.length - 5 = (tail.length - 6) + 1 := by omega
  have hne6 : tail.drop 6 ≠ [] := by
    intro h
    have := congrArg List.length h
    rw [List.length_drop] at this
    simp at this
    omega
  rw [hm, parseGo, if_neg (by simpa using hne6), hD]
  simp [hS]

/-- Decompressor for the C2 instantiation: succeeds exactly on suffixes of
length 4, i.e. at offset 6 of the 10-byte tail. -/
def c2D : List Nat → Option (List Nat × List Nat) :=
  fun bs => if bs.length = 4 then some ([5], []) else none

/-- Splitter for the C2 instantiation: one entry and the stop signal. -/
def c2S : List Nat → List (String × String) × Bool :=
  fun _ => ([("omega", "text")], true)

/-- Concrete instantiation of `c2_resync_one_byte`: with a 100-byte header
and a 10-byte tail whose decompression succeeds only at offset 6, the parse
yields exactly the entries of that segment. -/
theorem c2_resync_one_byte_witness :
    parseBytes c2D c2S (List.replicate 100 0 ++ [0, 1, 2, 3, 4, 5, 6, 7, 8, 9]) =
      some [("omega", "text")] :=
  (c2_resync_one_byte c2D c2S).2.2.2 (List.replicate 100 0)
    [0, 1, 2, 3, 4, 5, 6, 7, 8, 9] [5] [] [("omega", "text")]
    (by decide) (by decide) (by decide) (by decide) (by decide)

/-! Byte-level text decoding.  `utf8Decode` is the strict UTF-8 decoder
(continuation-byte, overlong and surrogate checks as in CPython),
`none` modelling a raised `UnicodeDecodeError`. -/

/-- A UTF-8 continuation byte. -/
def contByte (b : Nat) : Bool := decide (128 ≤ b) && decide (b < 192)

/-- Second-byte restriction of three-byte sequences (no overlongs, no
surrogates). -/
def threeByteOk (b b2 : Nat) : Bool :=
  (decide (b ≠ 224) || decide (160 ≤ b2)) && (decide (b ≠ 237) || decide (b2 ≤ 159))

/-- Second-byte restriction of four-byte sequences (no overlongs, maximum
U+10FFFF). -/
def fourByteOk (b b2 : Nat) : Bool :=
  (decide (b ≠ 240) || decide (144 ≤ b2)) && (decide (b ≠ 244) || decide (b2 ≤ 143))

/-- Strict UTF-8 decoding of a byte sequence. -/
def utf8Decode : List Nat → Option (List Char)
  | [] => some []
  | b :: bs =>
    if b < 128 then
      (utf8Decode bs).map (fun cs => Char.ofNat b :: cs)
    else if 194 ≤ b ∧ b ≤ 223 then
      match bs with
      | b2 :: bs2 =>
        if contByte b2 then
          (utf8Decode bs2).map (fun cs => Char.ofNat ((b - 192) * 64 + (b2 - 128)) :: cs)
        else none
      | [] => none
    else if 224 ≤ b ∧ b ≤ 239 then
      match bs with
      | b2 :: b3 :: bs3 =>
        if contByte b2 && contByte b3 && threeByteOk b b2 then
          (utf8Decode bs3).map
            (fun cs => Char.ofNat ((b - 224) * 4096 + (b2 - 128) * 64 + (b3 - 128)) :: cs)
        else none
      | _ => none
    else if 240 ≤ b ∧ b ≤ 244 then
      match bs with
      | b2 :: b3 :: b4 :: bs4 =>
        if contByte b2 && contByte b3 && contByte b4 && fourByteOk b b2 then
          (utf8Decode bs4).map
            (fun cs => Char.ofNat
              ((b - 240) * 262144 + (b2 - 128) * 4096 + (b3 - 128) * 64 + (b4 - 128)) :: cs)
        else none
      | _ => none
    else none

/-- The text encodings `try_to_read` knows about. -/
inductive Encoding where
  | utf8 : Encoding
  | latin1 : Encoding
  | ascii : Encoding
deriving DecidableEq

/-- Decoding one byte buffer under one encoding; ISO-8859-1 maps every byte
to the code point of the same value, ASCII accepts only bytes below 128. -/
def decodeWith : Encoding → List Nat → Option (List Char)
  | .utf8, bs => utf8Decode bs
  | .latin1, bs =>
    if bs.all (fun b => decide (b < 256)) then some (bs.map Char.ofNat) else none
  | .ascii, bs =>
    if bs.all (fun b => decide (b < 128)) then some (bs.map Char.ofNat) else none

/-- The fallback candidate list of `try_to_read` when no explicit input
encoding is supplied. -/
def fallbackEncodings : List Encoding := [.utf8, .latin1, .ascii]

/-- The encoding loop of `try_to_read`: first successful decode wins; if
every candidate fails, the fatal unknown-encoding `ValueError` is raised. -/
def tryLoop (bs : List Nat) : List Encoding → Except Unit (List Char)
  | [] => .error ()
  | e :: rest =>
    match decodeWith e bs with
    | some s => .ok s
    | none => tryLoop bs rest

/-- Model of `try_to_read` of `extract.py` (the file content is the byte list). -/
def tryToRead (bs : List Nat) (inputEncoding : Option Encoding) :
    Except Unit (List Char) :=
  match inputEncoding with
  | some e => tryLoop bs [e]
  | none => tryLoop bs fallbackEncodings

/-- Claim C10: with no explicit input encoding the candidate list is
utf-8, ISO-8859-1, ascii; ISO-8859-1 decoding succeeds on every byte
sequence, so the unknown-encoding error branch after the loop is
unreachable and the result is the text decoded with utf-8 when that
succeeds and with ISO-8859-1 otherwise. -/
theorem c10_fallback_never_fails (bs : List Nat) (hbs : ∀ b ∈ bs, b < 256) :
    decodeWith .latin1 bs = some (bs.map Char.ofNat)
    ∧ tryToRead bs none = .ok ((utf8Decode bs).getD (bs.map Char.ofNat))
    ∧ tryToRead bs none ≠ .error () := by
  have hlatin : decodeWith .latin1 bs = some (bs.map Char.ofNat) := by
    rw [decodeWith, if_pos]
    rw [List.all_eq_true]
    intro b hb
    exact decide_eq_true (hbs b hb)
  have hmain : tryToRead bs none = .ok ((utf8Decode bs).getD (bs.map Char.ofNat)) := by
    rw [tryToRead, fallbackEncodings, tryLoop]
    cases hu : utf8Decode bs with
    | some s =>
      have : decodeWith .utf8 bs = some s := hu
      simp [this, hu]
    | none =>
      have h1 : decodeWith .utf8 bs = none := hu
      simp [h1, tryLoop, hlatin, hu]
  refine ⟨hlatin, hmain, ?_⟩
  rw [hmain]
  intro h
  exact Except.noConfusion h

/-- Concrete instantiation of `c10_fallback_never_fails`: the byte 255 is
not valid UTF-8, so the file is decoded with ISO-8859-1. -/
theorem c10_fallback_never_fails_witness :
    tryToRead [255, 97] none =
      .ok ((utf8Decode [255, 97]).getD ([255, 97].map Char.ofNat)) :=
  (c10_fallback_never_fails [255, 97] (by decide)).2.1

/-! The entry splitter `_split` of `reverse_data.py`. -/

/-- Model of `bytes.index` for the newline byte: the offset of the first newline
byte. -/
def findNewline : List Nat → Option Nat
  | [] => none
  | b :: rest => if b = 10 then some 0 else (findNewline rest).map (fun n => n + 1)

/-- Python substring containment `pat in s`. -/
def containsSub (pat : List Char) : List Char → Bool
  | [] => pat.isEmpty
  | c :: rest => pat.isPrefixOf (c :: rest) || containsSub pat rest

/-- The terminal sentinel substring of the NOAD container. -/
def sentinelChars : List Char := "fbm_AdvisoryBoard".toList

/-- The opening entry tag required at the start of every markup line. -/
def openTagChars : List Char := "<d:entry".toList

/-- The closing entry tag required at the end of every markup line. -/
def closeTagChars : List Char := "</d:entry>".toList

/-- The failure modes of `_split`: a `UnicodeDecodeError` while decoding a
line, and the `AssertionError` of the structural entry-tag check.
`outOfFuel` is an artefact of the explicit fuel; the initial fuel
`length + 1` is never exhausted since every iteration drops at least five
bytes. -/
inductive SplitError where
  | decodeFailure : SplitError
  | structureViolation : SplitError
  | outOfFuel : SplitError
deriving DecidableEq

/-- Loop of `_split`: find the next newline, decode the line, stop on the
sentinel, check the entry tags (`assert`), record `(name, text)` via the
abstracted XML title lookup `gn`, then skip the newline plus four padding
bytes.  Total offsets and verbose printing carry no information and are
dropped. -/
def splitGo (gn : List Char → String) :
    Nat → List Nat → List (String × List Char) →
    Except SplitError (List (String × List Char) × Bool)
  | 0, _, _ => .error .outOfFuel
  | fuel + 1, input, entries =>
    match findNewline input with
    | none => .ok (entries, false)
    | some idx =>
      match utf8Decode (input.take idx) with
      | none => .error .decodeFailure
      | some entryText =>
        if containsSub sentinelChars (entryText.take 1000) then .ok (entries, true)
        else if openTagChars.isPrefixOf entryText && closeTagChars.isSuffixOf entryText then
          splitGo gn fuel (input.drop (idx + 5)) (entries ++ [(gn entryText, entryText)])
        else .error .structureViolation

/-- Model of `_split`: the first 4 metadata bytes of the payload are discarded, then
the line loop runs. -/
def splitBytes (gn : List Char → String) (input : List Nat) :
    Except SplitError (List (String × List Char) × Bool) :=
  splitGo gn (input.length + 1) (input.drop 4) []

theorem findNewline_append (line rest : List Nat) (hnl : (10 : Nat) ∉ line) :
    findNewline (line ++ 10 :: rest) = some line.length := by
  induction line with
  | nil => simp [findNewline]
  | cons b line ih =>
    have hb : ¬ b = 10 := by
      intro h; exact hnl (by simp [h])
    have hl : (10 : Nat) ∉ line := fun h => hnl (by simp [h])
    rw [List.cons_append, findNewline, if_neg hb, ih hl]
    simp

/-- Claim C3: for a newline-delimited line of the (metadata-stripped)
payload that decodes to `text`: if the first 1000 characters of `text`
contain the sentinel, splitting stops, returning the entries gathered so
far with the stop signal true; otherwise the splitter fails with the fatal
structural error exactly when the line does not both start with the opening
entry tag and end with the matching closing entry tag, and proceeds past
the newline and the 4 padding bytes otherwise.  (The first conjunct records
that `_split` discards the first 4 metadata bytes before looping.) -/
theorem c3_split_line_step (gn : List Char → String) (line rest : List Nat)
    (acc : List (String × List Char)) (fuel : Nat) (text : List Char)
    (hnl : (10 : Nat) ∉ line) (hdec : utf8Decode line = some text) :
    (∀ input, splitBytes gn input = splitGo gn (input.length + 1) (input.drop 4) [])
    ∧ (containsSub sentinelChars (text.take 1000) = true →
        splitGo gn (fuel + 1) (line ++ 10 :: rest) acc = .ok (acc, true))
    ∧ (containsSub sentinelChars (text.take 1000) = false →
        (openTagChars.isPrefixOf text && closeTagChars.isSuffixOf text) = true →
        splitGo gn (fuel + 1) (line ++ 10 :: rest) acc =
          splitGo gn fuel (rest.drop 4) (acc ++ [(gn text, text)]))
    ∧ (containsSub sentinelChars (text.take 1000) = false →
        (openTagChars.isPrefixOf text && closeTagChars.isSuffixOf text) = false →
        splitGo gn (fuel + 1) (line ++ 10 :: rest) acc = .error .structureViolation) := by
  have hfind : findNewline (line ++ 10 :: rest) = some line.length :=
    findNewline_append line rest hnl
  have htake : (line ++ 10 :: rest).take line.length = line := List.take_left line _
  have hdrop : (line ++ 10 :: rest).drop (line.length + 5) = rest.drop 4 := by
    rw [List.drop_append]
    rfl
  have hunfold : splitGo gn (fuel + 1) (line ++ 10 :: rest) acc =
      (if containsSub sentinelChars (text.take 1000) then .ok (acc, true)
       else if openTagChars.isPrefixOf text && closeTagChars.isSuffixOf text then
         splitGo gn fuel (rest.drop 4) (acc ++ [(gn text, text)])
       else .error .structureViolation) := by
    rw [splitGo, hfind]
    simp only [htake, hdec, hdrop]
  refine ⟨fun _ => rfl, ?_, ?_, ?_⟩
  · intro h1
    rw [hunfold, if_pos h1]
  · intro h1 h2
    rw [hunfold, if_neg (by simp [h1]), if_pos h2]
  · intro h1 h2
    rw [hunfold, if_neg (by simp [h1]), if_neg (by simp [h2])]

/-- ASCII text as a byte list. -/
def asciiBytes (s : String) : List Nat := s.toList.map Char.toNat

/-- Concrete instantiation of `c3_split_line_step`: a line containing the
sentinel stops the split with the entries gathered so far. -/
theorem c3_split_line_step_witness :
    splitGo (fun _ => "") 1 (asciiBytes "fbm_AdvisoryBoard" ++ 10 :: []) [] =
      .ok ([], true) :=
  (c3_split_line_step (fun _ => "") (asciiBytes "fbm_AdvisoryBoard") [] [] 0
    "fbm_AdvisoryBoard".toList (by decide) (by decide)).2.1 (by decide)

/-! Token sanitization of `_get_word_counts` in `extract.py`. -/

/-- Constant `MIN_WORD_LEN` of `extract.py`. -/
def MIN_WORD_LEN : Nat := 1

/-- The apostrophe character (code point 39). -/
def apostrophe : Char := Char.ofNat 39

/-- The characters of the Python strip set: apostrophe, period, hyphen,
backtick (96), double quote (34). -/
def stripChars : List Char := [apostrophe, '.', '-', Char.ofNat 96, Char.ofNat 34]

/-- Remove leading characters belonging to `cs`. -/
def lstripChars (cs : List Char) (s : List Char) : List Char :=
  s.dropWhile (fun c => cs.contains c)

/-- Python `str.strip(cs)`: remove leading and trailing characters
belonging to `cs`. -/
def pyStrip (cs : List Char) (s : List Char) : List Char :=
  (lstripChars cs ((lstripChars cs s).reverse)).reverse

/-- Worker for `removeApostropheS`, structurally recursive on fuel; each
step consumes at least one character, so fuel equal to the length is
enough and the fuel-exhaustion base case is never taken. -/
def removeApoSGo : Nat → List Char → List Char
  | 0, s => s
  | _ + 1, [] => []
  | fuel + 1, c1 :: rest =>
    match rest with
    | [] => [c1]
    | c2 :: rest2 =>
      if c1 = apostrophe ∧ c2 = 's' then removeApoSGo fuel rest2
      else c1 :: removeApoSGo fuel rest

/-- Python `w.replace("'s", "")`: remove every non-overlapping occurrence
of apostrophe-s, scanning left to right. -/
def removeApostropheS (s : List Char) : List Char := removeApoSGo s.length s

/-- Model of `all(c.isdigit() for c in w)`. -/
def allDigits (s : List Char) : Bool := s.all (fun c => c.isDigit)

/-- The token-pruning pipeline of `_get_word_counts` (`extract.py`,
the generator chain between tokenization and counting): strip punctuation,
replace apostrophe-s, drop tokens with a period, drop short tokens, drop
all-digit tokens. -/
def pruneTokens (ws : List (List Char)) : List (List Char) :=
  let ws1 := ws.map (fun w => pyStrip stripChars w)
  let ws2 := ws1.map removeApostropheS
  let ws3 := ws2.filter (fun w => !(w.contains '.'))
  let ws4 := ws3.filter (fun w => decide (MIN_WORD_LEN < w.length))
  ws4.filter (fun w => !(w.isEmpty) && !(allDigits w))

/-- Modelled from the claim wording of C8 (not from the code): remove only
a literal trailing possessive apostrophe-s. -/
def removeTrailingApostropheS (s : List Char) : List Char :=
  if ([apostrophe, 's']).isSuffixOf s then s.take (s.length - 2) else s

/-- Modelled from the claim wording of C8 (not from the code): the pruning
pipeline with only the trailing possessive removed. -/
def pruneTokensSpec (ws : List (List Char)) : List (List Char) :=
  let ws1 := ws.map (fun w => pyStrip stripChars w)
  let ws2 := ws1.map removeTrailingApostropheS
  let ws3 := ws2.filter (fun w => !(w.contains '.'))
  let ws4 := ws3.filter (fun w => decide (MIN_WORD_LEN < w.length))
  ws4.filter (fun w => !(w.isEmpty) && !(allDigits w))

/-- Counterexample to claim C8 as stated: on the token `a'sb` the code
removes the internal apostrophe-s (producing `ab`), while the claimed
trailing-only removal would keep the token unchanged. -/
theorem c8_sanitize_counterexample :
    pruneTokens [['a', apostrophe, 's', 'b']] = [['a', 'b']]
    ∧ pruneTokensSpec [['a', apostrophe, 's', 'b']] = [['a', apostrophe, 's', 'b']]
    ∧ (['a', 'b'] : List Char) ≠ ['a', apostrophe, 's', 'b'] := by decide

theorem filter_filter_filter {α : Type} (p1 p2 p3 : α → Bool) (l : List α) :
    ((l.filter p1).filter p2).filter p3 =
      l.filter (fun a => p1 a && p2 a && p3 a) := by
  simp only [List.filter_filter]
  congr 1
  funext a
  cases p1 a <;> cases p2 a <;> cases p3 a <;> rfl

theorem filter_map_eq_filterMap {α β : Type} (q : β → Bool) (f : α → β)
    (l : List α) :
    (l.map f).filter q =
      l.filterMap (fun a => if q (f a) then some (f a) else none) := by
  induction l with
  | nil => rfl
  | cons a l ih =>
    cases h : q (f a) <;> simp [List.filter_cons, List.filterMap_cons, h, ih]

/-- Claim C8 amended: every token has leading and trailing quote, period,
hyphen and backtick characters stripped, and then every occurrence of the
substring apostrophe-s removed (the Python `replace`, not only a trailing
possessive), before tokens containing a period, tokens of length at most 1
and all-digit tokens are discarded. -/
theorem c8_sanitize_amended (ws : List (List Char)) :
    pruneTokens ws = ws.filterMap (fun w =>
      if !((removeApostropheS (pyStrip stripChars w)).contains '.')
          && decide (MIN_WORD_LEN < (removeApostropheS (pyStrip stripChars w)).length)
          && (!((removeApostropheS (pyStrip stripChars w)).isEmpty)
              && !(allDigits (removeApostropheS (pyStrip stripChars w))))
        then some (removeApostropheS (pyStrip stripChars w)) else none) := by
  show ((((ws.map (fun w => pyStrip stripChars w)).map removeApostropheS).filter
      (fun w => !(w.contains '.'))).filter
      (fun w => decide (MIN_WORD_LEN < w.length))).filter
      (fun w => !(w.isEmpty) && !(allDigits w)) = _
  rw [List.map_map, filter_filter_filter, filter_map_eq_filterMap]
  rfl

/-! The book-extraction pipeline `extract_definitions_from_text` of
`extract.py` and the missing `add_links` attribute (claim C9). -/

/-- The failure kinds the extraction pipeline can surface. -/
inductive PyErr where
  | fileNotFound : PyErr
  | attributeError (attr : String) : PyErr
  | unknownEncoding : PyErr
  | keyError : PyErr
deriving DecidableEq

/-- The attributes class `WordDictionary` actually defines (its methods from
`reverse_data.py` plus the two instance attributes set in `__init__`).
`add_links` is not among them. -/
def wordDictionaryAttrs : List String :=
  ["from_file", "__init__", "items", "filtered", "__getitem__", "__contains__",
   "__str__", "d", "links"]

/-- Python attribute lookup on a `WordDictionary` value: succeeds exactly
for the attributes the class defines. -/
def wordDictionaryHasAttr (a : String) : Bool := wordDictionaryAttrs.contains a

/-- What a run of `extract_definitions_from_text` produces: the returned
value or the raised error, whether the score step ran, and whether the
output archive was written. -/
structure ExtractOutcome where
  result : Except PyErr (List String)
  scoresComputed : Bool
  archiveWritten : Bool

/-- Model of `_get_scores` of `extract.py`: score = count, halved when the entry
register info contains "literary"; `none` models the `KeyError` raised when
a counted word resolves nowhere. -/
def getScoresOpt (wordCounts : List (String × Nat)) (wd : WordDictionary) :
    Option (List (String × ℚ)) :=
  wordCounts.mapM (fun p =>
    (wd.getitem p.1).map (fun e =>
      (p.1, if e.info.contains "literary" then (p.2 : ℚ) / 2 else (p.2 : ℚ))))

/-- Model of `extract_definitions_from_text` of `extract.py`.  The dictionary parse,
tokenizer and lemmatizer are abstracted (`wd`, `getWordCounts`); reading the
input goes through `tryToRead`; the call `word_dict.add_links(links)` is
modelled by the dynamic attribute lookup `wordDictionaryHasAttr`, raising
`AttributeError` when the attribute does not exist.  Scores and the export
archive come strictly after that call. -/
def extractDefinitionsFromText (inputExists : Bool) (wd : WordDictionary)
    (bs : List Nat) (enc : Option Encoding)
    (getWordCounts : List Char → WordDictionary →
      List (String × Nat) × List (String × String)) : ExtractOutcome :=
  if inputExists = false then ⟨.error .fileNotFound, false, false⟩
  else
    match tryToRead bs enc with
    | .error _ => ⟨.error .unknownEncoding, false, false⟩
    | .ok text =>
      let wc := getWordCounts text wd
      if wordDictionaryHasAttr "add_links" then
        match getScoresOpt wc.1 wd with
        | none => ⟨.error .keyError, true, false⟩
        | some _scores =>
          match filteredWD wd (wc.1.map (fun p => p.1)) with
          | none => ⟨.error .keyError, true, false⟩
          | some _fd => ⟨.ok (wc.1.map (fun p => p.1)), true, true⟩
      else ⟨.error (.attributeError "add_links"), false, false⟩

/-- Claim C9: `WordDictionary` defines no `add_links` attribute, so every
call of `extract_definitions_from_text` that completes word counting raises
`AttributeError` at `word_dict.add_links(links)` — before any score is
computed and before any export archive is written, so the pipeline never
produces its output artifact. -/
theorem c9_add_links_attribute_error (wd : WordDictionary) (bs : List Nat)
    (enc : Option Encoding) (text : List Char)
    (getWordCounts : List Char → WordDictionary →
      List (String × Nat) × List (String × String))
    (hread : tryToRead bs enc = .ok text) :
    wordDictionaryHasAttr "add_links" = false
    ∧ extractDefinitionsFromText true wd bs enc getWordCounts =
        ⟨.error (.attributeError "add_links"), false, false⟩ := by
  have hattr : wordDictionaryHasAttr "add_links" = false := by decide
  refine ⟨hattr, ?_⟩
  rw [extractDefinitionsFromText]
  simp [hread, hattr]

/-- Concrete instantiation of `c9_add_links_attribute_error` on an empty
input file and an empty dictionary. -/
theorem c9_add_links_attribute_error_witness :
    extractDefinitionsFromText true ⟨[], []⟩ [] none (fun _ _ => ([], [])) =
      ⟨.error (.attributeError "add_links"), false, false⟩ :=
  (c9_add_links_attribute_error ⟨[], []⟩ [] none [] (fun _ _ => ([], [])) rfl).2

end ParseDict
